import Mathlib

/-!
Shallow embedding of the MiacatPoker provably-fair card-game system
(`miapoker.py`) and its independent verifier (`miaverify.py`).

Modelling conventions:
* `hashlib.sha512(...).hexdigest()` is an external library primitive; it is
  modelled as an arbitrary function parameter `sha : List Nat → String`
  mapping a byte sequence to a digest string.  Every theorem holds for every
  such function, in particular for real SHA-512.
* `secrets.randbelow` / `secrets.token_hex` draw fresh secure randomness;
  random draws are modelled as explicit parameters (`rng : Nat → Nat` for
  the shuffle's per-index draws, plain `String` arguments for random
  tokens), so theorems quantify over every possible draw sequence.
* Python `dict`s (insertion-ordered, unique keys) are modelled as
  association lists with an update-or-append insertion operation.
* Python exceptions (`raise ValueError`) are modelled with `Except`/`Option`;
  in the source every `raise` happens before any state mutation, so the
  error branches of the embedding return no new state.
-/

/-! ### Bytes and UTF-8 -/

/-- The UTF-8 encoding of a string as a list of byte values
(Python `s.encode('utf-8')`). -/
def utf8Bytes (s : String) : List Nat :=
  (s.data.flatMap String.utf8EncodeChar).map (fun b => b.toNat)

/-! ### Canonical JSON serialization (`json.dumps(v, sort_keys=True)`)

`json.dumps` with default separators renders `", "` between items and
`": "` between a key and its value, escapes `"` and `\`, and (with the
default `ensure_ascii=True`) writes non-ASCII characters as `\uXXXX`
escapes.  All data serialized by this program lies in the Basic
Multilingual Plane, so surrogate pairs are not modelled. -/

/-- Lowercase hexadecimal digit for `n < 16`. -/
def hexDigitChar (n : Nat) : Char :=
  if n < 10 then Char.ofNat (48 + n) else Char.ofNat (87 + n)

/-- Four-digit lowercase hexadecimal rendering used by `\uXXXX` escapes. -/
def hex4 (n : Nat) : String :=
  String.mk [hexDigitChar (n / 4096 % 16), hexDigitChar (n / 256 % 16),
             hexDigitChar (n / 16 % 16), hexDigitChar (n % 16)]

/-- JSON escape of a single character, following `json.dumps` defaults. -/
def jsonEscapeChar (c : Char) : String :=
  if c = '"' then "\\\""
  else if c = '\\' then "\\\\"
  else if c = '\n' then "\\n"
  else if c = '\t' then "\\t"
  else if c = '\r' then "\\r"
  else if c.toNat < 32 || c.toNat > 126 then "\\u" ++ hex4 c.toNat
  else String.singleton c

/-- JSON escape of a whole string. -/
def jsonEscapeString (s : String) : String :=
  s.data.foldl (fun acc c => acc ++ jsonEscapeChar c) ""

/-- JSON-serializable Python values (`None`, `bool`, `int`, `str`, `list`,
`dict` with string keys): exactly the values `json.dumps` accepts in this
program. -/
inductive JVal where
  | null : JVal
  | bool : Bool → JVal
  | num : Int → JVal
  | str : String → JVal
  | arr : List JVal → JVal
  | obj : List (String × JVal) → JVal

/-- Render one already-serialized key/value pair, `"key": value`. -/
def renderPair (p : String × String) : String :=
  "\"" ++ jsonEscapeString p.1 ++ "\": " ++ p.2

/-- `sort_keys=True`: object entries ordered by key (Python compares
strings lexicographically by code point, as Lean's `String` order does). -/
def sortPairsByKey (l : List (String × String)) : List (String × String) :=
  List.insertionSort (fun a b => a.1 ≤ b.1) l

mutual

/-- `json.dumps(v, sort_keys=True)` with default separators. -/
def jsonDumps : JVal → String
  | .null => "null"
  | .bool b => if b then "true" else "false"
  | .num n => toString n
  | .str s => "\"" ++ jsonEscapeString s ++ "\""
  | .arr l => "[" ++ String.intercalate ", " (jsonDumpsList l) ++ "]"
  | .obj l =>
      "\x7b" ++
        String.intercalate ", " ((sortPairsByKey (jsonDumpsPairs l)).map renderPair)
      ++ "\x7d"

/-- Serialize each element of a JSON array. -/
def jsonDumpsList : List JVal → List String
  | [] => []
  | v :: rest => jsonDumps v :: jsonDumpsList rest

/-- Serialize the value of each object entry, keeping its key. -/
def jsonDumpsPairs : List (String × JVal) → List (String × String)
  | [] => []
  | p :: rest => (p.1, jsonDumps p.2) :: jsonDumpsPairs rest

end

/-! ### `hashValue` (`miapoker.py` lines 39–44 and `miaverify.py` lines 26–31)

Both files define a textually identical method:

    if not isinstance(value, (str, bytes)):
        value = json.dumps(value, sort_keys=True)
    if isinstance(value, str):
        value = value.encode('utf-8')
    return hashlib.sha512(value).hexdigest()

Inputs are either raw bytes, or a JSON-serializable value (`str` included). -/

/-- An argument passed to `hashValue`: `bytes`, or a JSON-serializable
value (a `str` is the `JVal.str` case). -/
inductive HashInput where
  | bytes : List Nat → HashInput
  | json : JVal → HashInput

/-- `MiacatPokerSystem.hashValue` (`miapoker.py` lines 39–44). -/
def MiacatPokerSystem.hashValue (sha : List Nat → String) : HashInput → String
  | .bytes b => sha b
  | .json (.str s) => sha (utf8Bytes s)
  | .json v => sha (utf8Bytes (jsonDumps v))

/-- `MiacatVerifier.hashValue` (`miaverify.py` lines 26–31). -/
def MiacatVerifier.hashValue (sha : List Nat → String) : HashInput → String
  | .bytes b => sha b
  | .json (.str s) => sha (utf8Bytes s)
  | .json v => sha (utf8Bytes (jsonDumps v))

/-- Digest of a string argument; by `hashValue_json_str` below this is what
either `hashValue` computes on a `str` input (see the two lemmas below), and every `hashValue` call in
the program passes a `str`. -/
def hashString (sha : List Nat → String) (s : String) : String :=
  sha (utf8Bytes s)

theorem system_hashValue_on_str (sha : List Nat → String) (s : String) :
    MiacatPokerSystem.hashValue sha (.json (.str s)) = hashString sha s := rfl

theorem verifier_hashValue_on_str (sha : List Nat → String) (s : String) :
    MiacatVerifier.hashValue sha (.json (.str s)) = hashString sha s := rfl

/-! ### Cards (`miapoker.py` lines 12–13, 63–72) -/

/-- One entry of the card mapping: the dict
`{"suit": suit, "value": value, "display": f"{value}{suit}"}`. -/
structure Card where
  suit : String
  value : String
  display : String
deriving DecidableEq

/-- `MiacatPokerSystem.SUITS` (`miapoker.py` line 12). -/
def SUITS : List String :=
  [" of Hearts ♥", " of Diamonds ♦", " of Clubs ♣", " of Spades ♠"]

/-- `MiacatPokerSystem.VALUES` (`miapoker.py` line 13). -/
def VALUES : List String :=
  ["Ace", "2", "3", "4", "5", "6", "7", "8", "9", "10", "Jack", "Queen", "King"]

/-- The card record built for one suit/value pair. -/
def mkCard (suit value : String) : Card :=
  { suit := suit, value := value, display := value ++ suit }

/-- The 52-card list built by the nested loops of `_generateCardMapping`
(`miapoker.py` lines 64–71), before shuffling. -/
def canonicalCards : List Card :=
  SUITS.flatMap (fun suit => VALUES.map (fun value => mkCard suit value))

/-! ### Python dicts as association lists -/

/-- Lookup `d[k]` (`none` models a `KeyError`). -/
def dictGet (k : String) : List (String × α) → Option α
  | [] => none
  | p :: rest => if p.1 = k then some p.2 else dictGet k rest

/-- Assignment `d[k] = v`: an existing key keeps its position and gets the
new value, a new key is appended (Python dict insertion order). -/
def dictInsert (k : String) (v : α) : List (String × α) → List (String × α)
  | [] => [(k, v)]
  | p :: rest => if p.1 = k then (k, v) :: rest else p :: dictInsert k v rest

/-! ### Secure Fisher–Yates shuffle (`miapoker.py` lines 74–79)

    items = items.copy()
    for i in range(len(items) - 1, 0, -1):
        j = secrets.randbelow(i + 1)
        items[i], items[j] = items[j], items[i]
    return items

The draw at loop index `i` is modelled as `rng i % (i + 1)`; since
`secrets.randbelow(i + 1)` always returns a value `≤ i`, the `%` is the
identity on every draw the real source can produce, and it makes the
embedding total for arbitrary `rng`. -/

/-- Simultaneous assignment `items[i], items[j] = items[j], items[i]`. -/
def listSwap (l : List α) (i j : Nat) : List α :=
  match l.get? i, l.get? j with
  | some a, some b => (l.set i b).set j a
  | _, _ => l

/-- The loop of `_secureArrayShuffle`, running the body at indices
`i, i-1, …, 1`. -/
def shuffleLoop (rng : Nat → Nat) (l : List α) : Nat → List α
  | 0 => l
  | i + 1 => shuffleLoop rng (listSwap l (i + 1) (rng (i + 1) % (i + 2))) i

/-- `MiacatPokerSystem._secureArrayShuffle` (`miapoker.py` lines 74–79). -/
def secureArrayShuffle (rng : Nat → Nat) (l : List α) : List α :=
  shuffleLoop rng l (l.length - 1)

/-- `MiacatPokerSystem._generateCardMapping` (`miapoker.py` lines 63–72). -/
def generateCardMapping (rng : Nat → Nat) : List Card :=
  secureArrayShuffle rng canonicalCards

/-! ### Game state (`miapoker.py` lines 15–24) -/

/-- One entry of `self.clientSeeds`: the dict
`{"seed": clientSeed, "salt": salt}`. -/
structure ClientEntry where
  seed : String
  salt : String
deriving DecidableEq

/-- The mutable state of a `MiacatPokerSystem` instance
(`miapoker.py` lines 15–24). -/
structure GameState where
  gameId : String
  serverSeed : Option String
  serverHash : Option String
  doubleHash : Option String
  cardMapping : Option (List Card)
  clientSeeds : List (String × ClientEntry)
  positions : List (String × Nat)
  commitments : List (String × String)
deriving DecidableEq

/-- `MiacatPokerSystem.__init__` with a given `gameId`
(`miapoker.py` lines 15–24). -/
def initialState (gameId : String) : GameState :=
  { gameId := gameId, serverSeed := none, serverHash := none, doubleHash := none,
    cardMapping := none, clientSeeds := [], positions := [], commitments := [] }

/-- `MiacatPokerSystem.gameVersion` (= `VERSION`, `miapoker.py` line 7). -/
def gameVersion : String := "0.0.8"

/-- `MiacatPokerSystem.MAX_PLAYERS` (`miapoker.py` line 11). -/
def MAX_PLAYERS : Nat := 9

/-- The JSON value of a card mapping, as handed to
`json.dumps(self.cardMapping, sort_keys=True)`. -/
def cardsToJVal (cards : List Card) : JVal :=
  .arr (cards.map (fun c =>
    .obj [("suit", .str c.suit), ("value", .str c.value), ("display", .str c.display)]))

/-- The JSON value of `self.cardMapping`, which is `None` before
`generateServerSeed` runs. -/
def optCardsToJVal : Option (List Card) → JVal
  | none => .null
  | some cards => cardsToJVal cards

/-- The combined binding string of `generateServerSeed`
(`miapoker.py` lines 50–51), also recomputed by the verifier:
`f"MiacatPoker_{gv}:{gameId}:{serverSeed}" + f":{json.dumps(cardMapping, sort_keys=True)}"`. -/
def serverCombinedSeed (gv gameId serverSeed : String) (cardMapping : Option (List Card)) :
    String :=
  "MiacatPoker_" ++ gv ++ ":" ++ gameId ++ ":" ++ serverSeed ++ ":"
    ++ jsonDumps (optCardsToJVal cardMapping)

/-- The data returned by `generateServerSeed` (`miapoker.py` lines 56–61). -/
structure InitData where
  gameId : String
  serverHash : String
  doubleHash : String
  gameVersion : String
deriving DecidableEq

/-- `MiacatPokerSystem.generateServerSeed` (`miapoker.py` lines 46–61).
`secrets.token_hex(32)` is modelled by the parameter `serverSeed`, the
shuffle's draws by `rng`. -/
def generateServerSeed (sha : List Nat → String) (rng : Nat → Nat)
    (serverSeed : String) (st : GameState) : GameState × InitData :=
  let cardMapping := generateCardMapping rng
  let combinedSeed := serverCombinedSeed gameVersion st.gameId serverSeed (some cardMapping)
  let serverHash := hashString sha combinedSeed
  let doubleHash := hashString sha serverHash
  ({ st with serverSeed := some serverSeed, cardMapping := some cardMapping,
             serverHash := some serverHash, doubleHash := some doubleHash },
   { gameId := st.gameId, serverHash := serverHash, doubleHash := doubleHash,
     gameVersion := gameVersion })

/-! ### `processClientSeed` (`miapoker.py` lines 81–99) -/

/-- A Python value as returned in the result dict of `processClientSeed`:
the `"playerId"` entry is `playerId.lower` — the *bound method object*
`str.lower` of the id (the source omits the call parentheses), not a
string. -/
inductive PyRetVal where
  | str : String → PyRetVal
  | boundMethod : String → String → PyRetVal
deriving DecidableEq

/-- The dict returned by `processClientSeed` (`miapoker.py` lines 95–99). -/
structure CommitResult where
  playerId : PyRetVal
  commitment : String
  salt : String
deriving DecidableEq

/-- Error message of `miapoker.py` line 83. -/
def maxPlayersMsg : String := "Maximum players (9) reached!"

/-- Error message of `miapoker.py` line 86. -/
def seedTooLongMsg : String := "Client seed too long (max 64 bytes when UTF-8 encoded)"

/-- The commitment string of `miapoker.py` line 89 (and of the verifier's
`verifyPlayerCommitment`, `miaverify.py` line 45):
`f"MiacatPoker_{gv}:{gameId}:{seed}:{salt}"`. -/
def commitmentString (gv gameId seed salt : String) : String :=
  "MiacatPoker_" ++ gv ++ ":" ++ gameId ++ ":" ++ seed ++ ":" ++ salt

/-- `MiacatPokerSystem.processClientSeed` (`miapoker.py` lines 81–99).
`secrets.token_hex(16)` is modelled by the parameter `salt`. -/
def processClientSeed (sha : List Nat → String) (st : GameState)
    (playerId clientSeed salt : String) : Except String (GameState × CommitResult) :=
  if MAX_PLAYERS ≤ st.clientSeeds.length then
    .error maxPlayersMsg
  else if 64 < (utf8Bytes clientSeed).length then
    .error seedTooLongMsg
  else
    let commitment := hashString sha (commitmentString gameVersion st.gameId clientSeed salt)
    let st' := { st with
      clientSeeds := dictInsert playerId { seed := clientSeed, salt := salt } st.clientSeeds,
      commitments := dictInsert playerId commitment st.commitments }
    .ok (st', { playerId := .boundMethod "lower" playerId,
                commitment := commitment, salt := salt })

/-- The state-transformer view of `processClientSeed`: a Python `raise`
leaves the object untouched (both `raise` statements precede every
mutation), so on error the state is the input state. -/
def processClientSeedState (sha : List Nat → String) (st : GameState)
    (playerId clientSeed salt : String) : GameState :=
  match processClientSeed sha st playerId clientSeed salt with
  | .ok (st', _) => st'
  | .error _ => st

/-! ### `assignPositions` (`miapoker.py` lines 101–118) -/

/-- Error message of `miapoker.py` line 103. -/
def positionsPreconditionMsg : String :=
  "Need client seeds and server hash before assigning positions!"

/-- Stand-in for the `ValueError` text of a failed `int(s, 16)`. -/
def intParseMsg : String := "invalid literal for int() with base 16"

/-- One hexadecimal digit of `int(s, 16)` (Python accepts both cases). -/
def hexDigitVal (c : Char) : Option Nat :=
  if 48 ≤ c.toNat ∧ c.toNat ≤ 57 then some (c.toNat - 48)
  else if 97 ≤ c.toNat ∧ c.toNat ≤ 102 then some (c.toNat - 87)
  else if 65 ≤ c.toNat ∧ c.toNat ≤ 70 then some (c.toNat - 55)
  else none

/-- `int(s, 16)`, `none` modelling the `ValueError` on a non-hex string.
(Python also strips whitespace, an optional sign, underscores and an `0x`
prefix; those never occur in the hex digests this program parses.) -/
def hexParse (s : String) : Option Nat :=
  if s.isEmpty then none
  else s.data.foldl
    (fun acc c => acc.bind (fun n => (hexDigitVal c).map (fun d => 16 * n + d)))
    (some 0)

/-- `sorted` on strings: Python compares lexicographically by code point,
as Lean's `String` order does. -/
def sortStrings (l : List String) : List String :=
  List.insertionSort (fun a b => a ≤ b) l

/-- `MiacatPokerSystem.assignPositions` (`miapoker.py` lines 101–118).
The guard `not self.clientSeeds or not self.doubleHash` (empty dict, `None`
or empty string) is rendered by matching on `doubleHash` first; both
renderings produce the same single error.  `entropy` and `positionSeed`
are computed but never used by the source (`_positionSeed` keeps that dead
computation, whose `int` parse can still fail). -/
def assignPositions (rng : Nat → Nat) (st : GameState) :
    Except String (GameState × List (String × Nat)) :=
  match st.doubleHash with
  | none => .error positionsPreconditionMsg
  | some dh =>
    if st.clientSeeds.isEmpty || dh = "" then
      .error positionsPreconditionMsg
    else
      let playerIds := st.clientSeeds.map Prod.fst
      let positions := List.range' 1 playerIds.length
      match hexParse (dh.take 16) with
      | none => .error intParseMsg
      | some entropy =>
        let _positionSeed := "positions_" ++ st.gameId ++ "_" ++ toString entropy
        let shuffled := secureArrayShuffle rng positions
        let posMap := (sortStrings playerIds).zip shuffled
        .ok ({ st with positions := posMap }, posMap)

/-! ### `exportGameData` (`miapoker.py` lines 26–37) and the verifier's
record (`miaverify.py` lines 15–24) -/

/-- The exported game record, field for field the dict of
`exportGameData` and the fields read by `MiacatVerifier.__init__`. -/
structure GameRecord where
  gameId : String
  gameVersion : String
  serverSeed : Option String
  serverHash : Option String
  doubleHash : Option String
  cardMapping : Option (List Card)
  clientSeeds : List (String × ClientEntry)
  positions : List (String × Nat)
  commitments : List (String × String)
deriving DecidableEq

/-- `MiacatPokerSystem.exportGameData` (`miapoker.py` lines 26–37). -/
def exportGameData (st : GameState) : GameRecord :=
  { gameId := st.gameId, gameVersion := gameVersion, serverSeed := st.serverSeed,
    serverHash := st.serverHash, doubleHash := st.doubleHash,
    cardMapping := st.cardMapping, clientSeeds := st.clientSeeds,
    positions := st.positions, commitments := st.commitments }

/-! ### The verifier (`miaverify.py`) -/

/-- How an f-string renders a possibly-`None` string value. -/
def pyStr : Option String → String
  | none => "None"
  | some s => s

/-- The `hashValue` argument for a field that is a string or `None`
(`None` is JSON-serialized to `"null"`). -/
def optStrToHashInput : Option String → HashInput
  | none => .json .null
  | some s => .json (.str s)

/-- `MiacatVerifier.verifyServerHash` (`miaverify.py` lines 33–37):
recompute the combined binding string from the record and compare its
digest with the stored `serverHash`. -/
def verifyServerHash (sha : List Nat → String) (r : GameRecord) : Bool :=
  let combinedSeed := serverCombinedSeed r.gameVersion r.gameId (pyStr r.serverSeed) r.cardMapping
  let calculatedHash := hashString sha combinedSeed
  r.serverHash == some calculatedHash

/-- `MiacatVerifier.verifyDoubleHash` (`miaverify.py` lines 39–41). -/
def verifyDoubleHash (sha : List Nat → String) (r : GameRecord) : Bool :=
  let calculatedDoubleHash := MiacatVerifier.hashValue sha (optStrToHashInput r.serverHash)
  r.doubleHash == some calculatedDoubleHash

/-- `MiacatVerifier.verifyPlayerCommitment` (`miaverify.py` lines 43–47);
`none` models the `KeyError` on a player id missing from `clientSeeds` or
`commitments`. -/
def verifyPlayerCommitment (sha : List Nat → String) (r : GameRecord)
    (playerId : String) : Option Bool :=
  match dictGet playerId r.clientSeeds with
  | none => none
  | some data =>
    let calculatedCommitment :=
      hashString sha (commitmentString r.gameVersion r.gameId data.seed data.salt)
    (dictGet playerId r.commitments).map (fun stored => calculatedCommitment == stored)

/-- Python tuple order on `(playerId, pos)` pairs, used by
`sorted(self.positions.items())`. -/
def pairLe (a b : String × Nat) : Prop :=
  a.1 < b.1 ∨ (a.1 = b.1 ∧ a.2 ≤ b.2)

instance : DecidableRel pairLe := fun a b => by
  unfold pairLe; infer_instance

/-- The seed fragments `f"{clientData['seed']}:{pos}"` collected by the
loop of `regenerateDeck`; `none` models the `KeyError` when a player id
from `positions` is missing from `clientSeeds`. -/
def collectSeeds (clientSeeds : List (String × ClientEntry)) :
    List (String × Nat) → Option (List String)
  | [] => some []
  | p :: rest =>
    match dictGet p.1 clientSeeds with
    | none => none
    | some data =>
      (collectSeeds clientSeeds rest).map
        (fun l => (data.seed ++ ":" ++ toString p.2) :: l)

/-- The body of `regenerateDeck` as a function of the five record fields
it reads (`gameVersion`, `gameId`, `serverSeed`, `positions`,
`clientSeeds`) — and of no other part of the record. -/
def regenerateDeckCore (sha : List Nat → String) (gv gameId : String)
    (serverSeed : Option String) (positions : List (String × Nat))
    (clientSeeds : List (String × ClientEntry)) : Option String :=
  (collectSeeds clientSeeds (List.insertionSort pairLe positions)).map
    (fun seeds =>
      hashString sha
        ("MiacatPoker_" ++ gv ++ ":" ++ gameId ++ ":" ++ pyStr serverSeed ++ ":"
          ++ String.intercalate ":" seeds))

/-- `MiacatVerifier.regenerateDeck` (`miaverify.py` lines 68–78). -/
def regenerateDeck (sha : List Nat → String) (r : GameRecord) : Option String :=
  regenerateDeckCore sha r.gameVersion r.gameId r.serverSeed r.positions r.clientSeeds

/-- `MiacatVerifier.verifyDeck` (`miaverify.py` lines 61–66): run
`regenerateDeck` and report `true` unless it raised. -/
def verifyDeck (sha : List Nat → String) (r : GameRecord) : Bool :=
  (regenerateDeck sha r).isSome

/-! ### `dealCards` (`miapoker.py` lines 140–176)

The function prints as it goes and returns nothing; its observable card
consumption is the `cardDrawn` index arithmetic.  The embedding records
which deck index every step reads.  The seat order of each hole-card round
is `list(range(2, numPlayers + 1)) + [1]`. -/

/-- The deck indices consumed by `dealCards`, in program order. -/
structure DealTrace where
  burns : List Nat
  holeCards : List (Nat × Nat)
  flop : List Nat
  turn : List Nat
  river : List Nat
deriving DecidableEq

/-- The seat order of a dealing round: seats `2, 3, …, N` then `1`. -/
def dealOrder (numPlayers : Nat) : List Nat :=
  List.range' 2 (numPlayers - 1) ++ [1]

/-- `dealCards` (`miapoker.py` lines 140–176), as the trace of deck
indices it reads: burn one (index 0); one card per seat in `dealOrder`,
twice; burn; three flop cards; burn; one turn card; burn; one river card.
Each hole-card entry pairs the seat with the deck index it receives. -/
def dealCards (numPlayers : Nat) : DealTrace :=
  let order := dealOrder numPlayers
  let afterBurn1 := 1
  let round1 := order.zip (List.range' afterBurn1 order.length)
  let afterRound1 := afterBurn1 + order.length
  let round2 := order.zip (List.range' afterRound1 order.length)
  let afterRound2 := afterRound1 + order.length
  let flopStart := afterRound2 + 1
  let flop := List.range' flopStart 3
  let turnIdx := flopStart + 3 + 1
  let riverIdx := turnIdx + 1 + 1
  { burns := [0, afterRound2, flopStart + 3, turnIdx + 1],
    holeCards := round1 ++ round2,
    flop := flop, turn := [turnIdx], river := [riverIdx] }

/-- Total number of cards `dealCards` consumes from the deck. -/
def dealConsumed (numPlayers : Nat) : Nat :=
  let t := dealCards numPlayers
  t.burns.length + t.holeCards.length + t.flop.length + t.turn.length + t.river.length

/-! ### `PokerHandEvaluator` (`miapoker.py` lines 178–262) -/

/-- `PokerHandEvaluator.CARD_VALUES` (`miapoker.py` lines 192–195). -/
def CARD_VALUES : List (String × Nat) :=
  [("2", 2), ("3", 3), ("4", 4), ("5", 5), ("6", 6), ("7", 7), ("8", 8), ("9", 9),
   ("10", 10), ("Jack", 11), ("Queen", 12), ("King", 13), ("Ace", 14)]

/-- The dict lookup `CARD_VALUES[val]`; `none` models the `KeyError` on an
unknown card label. -/
def cardValue (v : String) : Option Nat :=
  (CARD_VALUES.find? (fun p => p.1 == v)).map Prod.snd

/-- `[self.CARD_VALUES[val] for val in values]`. -/
def mapCardValues : List String → Option (List Nat)
  | [] => some []
  | v :: rest => (cardValue v).bind (fun n => (mapCardValues rest).map (fun l => n :: l))

/-- `numericValues.sort(reverse=True)`: sort descending (on duplicated
numbers every descending sort produces the same list). -/
def sortDesc (l : List Nat) : List Nat :=
  List.insertionSort (fun a b => b ≤ a) l

/-- `PokerHandEvaluator._isFourOfKind` (`miapoker.py` lines 234–235);
iterating the list instead of `set(values)` does not change `any`. -/
def isFourOfKind (values : List Nat) : Bool :=
  values.any (fun v => values.count v == 4)

/-- `PokerHandEvaluator._isFlush` (`miapoker.py` lines 240–241). -/
def isFlush (suits : List String) : Bool :=
  suits.any (fun s => decide (5 ≤ suits.count s))

/-- `PokerHandEvaluator._isStraight` (`miapoker.py` lines 243–252):
a window of 5 consecutive members in the descending-sorted distinct
values, or the Ace-low wheel `{14, 2, 3, 4, 5}`. -/
def isStraight (values : List Nat) : Bool :=
  let uniqueValues := sortDesc values.dedup
  (decide (5 ≤ uniqueValues.length) &&
    (List.range (uniqueValues.length - 4)).any
      (fun i => uniqueValues.getD i 0 - uniqueValues.getD (i + 4) 0 == 4))
  || [14, 2, 3, 4, 5].all (fun v => values.contains v)

/-- `PokerHandEvaluator._isStraightFlush` (`miapoker.py` lines 231–232):
the flush test and the straight test are made *independently* — the flush
suit is never intersected with the straight values. -/
def isStraightFlush (values : List Nat) (suits : List String) : Bool :=
  isFlush suits && isStraight values

/-- `PokerHandEvaluator._isRoyalFlush` (`miapoker.py` lines 228–229);
`and` short-circuits, so `max(values)` is only reached when the straight
flush test already passed (hence on a nonempty list). -/
def isRoyalFlush (values : List Nat) (suits : List String) : Bool :=
  isStraightFlush values suits && (values.max? == some 14)

/-- `PokerHandEvaluator._isThreeOfKind` (`miapoker.py` lines 254–255). -/
def isThreeOfKind (values : List Nat) : Bool :=
  values.any (fun v => decide (3 ≤ values.count v))

/-- `PokerHandEvaluator._isOnePair` (`miapoker.py` lines 261–262). -/
def isOnePair (values : List Nat) : Bool :=
  values.any (fun v => decide (2 ≤ values.count v))

/-- `PokerHandEvaluator._isFullHouse` (`miapoker.py` lines 237–238). -/
def isFullHouse (values : List Nat) : Bool :=
  isThreeOfKind values && isOnePair values

/-- `PokerHandEvaluator._isTwoPair` (`miapoker.py` lines 257–259): the
number of *distinct* values occurring at least twice. -/
def isTwoPair (values : List Nat) : Bool :=
  decide (2 ≤ (values.dedup.filter (fun v => decide (2 ≤ values.count v))).length)

/-- `PokerHandEvaluator.evaluateHand` (`miapoker.py` lines 197–226);
`none` models the `KeyError` of an unknown card label. -/
def evaluateHand (holeCards communityCards : List Card) : Option (String × List Nat) :=
  let allCards := holeCards ++ communityCards
  let values := allCards.map Card.value
  let suits := allCards.map Card.suit
  (mapCardValues values).map (fun raw =>
    let numericValues := sortDesc raw
    if isRoyalFlush numericValues suits then ("Royal Flush", numericValues.take 5)
    else if isStraightFlush numericValues suits then ("Straight Flush", numericValues.take 5)
    else if isFourOfKind numericValues then ("Four of a Kind", numericValues.take 4)
    else if isFullHouse numericValues then ("Full House", numericValues.take 5)
    else if isFlush suits then ("Flush", numericValues.take 5)
    else if isStraight numericValues then ("Straight", numericValues.take 5)
    else if isThreeOfKind numericValues then ("Three of a Kind", numericValues.take 3)
    else if isTwoPair numericValues then ("Two Pair", numericValues.take 4)
    else if isOnePair numericValues then ("One Pair", numericValues.take 2)
    else ("High Card", numericValues.take 1))

/-! ### The shuffle returns a permutation -/

theorem cons_set_perm {α : Type _} (a : α) :
    ∀ (t : List α) (k : Nat) (b : α), t.get? k = some b →
      (b :: t.set k a).Perm (a :: t) := by
  intro t
  induction t with
  | nil => intro k b h; simp at h
  | cons c t ih =>
    intro k b h
    cases k with
    | zero =>
      simp only [List.get?_cons_zero, Option.some.injEq] at h
      subst h
      simpa using List.Perm.swap a c t
    | succ k =>
      simp only [List.get?_cons_succ] at h
      simp only [List.set_cons_succ]
      exact (List.Perm.swap c b _).trans (((ih k b h).cons c).trans (List.Perm.swap a c t))

theorem set_set_perm {α : Type _} :
    ∀ (l : List α) (i j : Nat) (a b : α),
      l.get? i = some a → l.get? j = some b → ((l.set i b).set j a).Perm l := by
  intro l
  induction l with
  | nil => intro i j a b hi _; simp at hi
  | cons c t ih =>
    intro i j a b hi hj
    cases i with
    | zero =>
      simp only [List.get?_cons_zero, Option.some.injEq] at hi
      subst hi
      cases j with
      | zero =>
        simp only [List.get?_cons_zero, Option.some.injEq] at hj
        subst hj
        simp
      | succ j =>
        simp only [List.get?_cons_succ] at hj
        simpa using cons_set_perm c t j b hj
    | succ i =>
      simp only [List.get?_cons_succ] at hi
      cases j with
      | zero =>
        simp only [List.get?_cons_zero, Option.some.injEq] at hj
        subst hj
        simpa using cons_set_perm c t i a hi
      | succ j =>
        simp only [List.get?_cons_succ] at hj
        simpa using (ih i j a b hi hj).cons c

theorem listSwap_perm {α : Type _} (l : List α) (i j : Nat) :
    (listSwap l i j).Perm l := by
  unfold listSwap
  cases hi : l.get? i with
  | none => exact List.Perm.refl l
  | some a =>
    cases hj : l.get? j with
    | none => exact List.Perm.refl l
    | some b => exact set_set_perm l i j a b hi hj

theorem shuffleLoop_perm {α : Type _} (rng : Nat → Nat) :
    ∀ (n : Nat) (l : List α), (shuffleLoop rng l n).Perm l := by
  intro n
  induction n with
  | zero => intro l; exact List.Perm.refl l
  | succ n ih =>
    intro l
    exact (ih _).trans (listSwap_perm l (n + 1) (rng (n + 1) % (n + 2)))

/-- `_secureArrayShuffle` returns a permutation of its input, for every
sequence of random draws. -/
theorem secureArrayShuffle_perm {α : Type _} (rng : Nat → Nat) (l : List α) :
    (secureArrayShuffle rng l).Perm l :=
  shuffleLoop_perm rng (l.length - 1) l

/-- C3: For every card-identity permutation produced by
`generateServerSeed` (via `_generateCardMapping` and
`_secureArrayShuffle`, for any sequence of random draws), the resulting
sequence is a permutation of the 52 canonical cards: every rank-suit
combination appears exactly once, no duplicates, none missing. -/
theorem generateCardMapping_perm_canonical (rng : Nat → Nat) :
    (generateCardMapping rng).Perm canonicalCards ∧
    (∀ c : Card, (generateCardMapping rng).count c = canonicalCards.count c) ∧
    canonicalCards.Nodup ∧
    canonicalCards.length = 52 ∧
    canonicalCards.all (fun c => canonicalCards.count c == 1) = true ∧
    (∀ (sha : List Nat → String) (serverSeed : String) (st : GameState),
      ((generateServerSeed sha rng serverSeed st).1).cardMapping
        = some (generateCardMapping rng)) := by
  refine ⟨secureArrayShuffle_perm rng canonicalCards,
          fun c => (secureArrayShuffle_perm rng canonicalCards).count_eq c,
          by decide, by decide, by decide, fun sha serverSeed st => rfl⟩

/-! ### Dictionary lemmas -/

theorem dictGet_dictInsert_self {α : Type _} (k : String) (v : α) :
    ∀ d : List (String × α), dictGet k (dictInsert k v d) = some v := by
  intro d
  induction d with
  | nil => simp [dictGet, dictInsert]
  | cons p rest ih =>
    by_cases h : p.1 = k
    · simp [dictInsert, h, dictGet]
    · simp [dictInsert, h, dictGet, ih]

theorem dictGet_dictInsert_ne {α : Type _} (k k' : String) (v : α) (h : k' ≠ k) :
    ∀ d : List (String × α), dictGet k (dictInsert k' v d) = dictGet k d := by
  intro d
  induction d with
  | nil => simp [dictGet, dictInsert, h]
  | cons p rest ih =>
    by_cases hp : p.1 = k'
    · simp [dictInsert, hp, dictGet, h]
    · simp only [dictInsert, hp, if_false]
      by_cases hk : p.1 = k
      · simp [dictGet, hk]
      · simp [dictGet, hk, ih]

theorem dictInsert_length_le {α : Type _} (k : String) (v : α) :
    ∀ d : List (String × α), (dictInsert k v d).length ≤ d.length + 1 := by
  intro d
  induction d with
  | nil => simp [dictInsert]
  | cons p rest ih =>
    by_cases h : p.1 = k
    · simp [dictInsert, h]
    · simpa [dictInsert, h] using ih

theorem mem_keys_dictInsert {α : Type _} (x k : String) (v : α) :
    ∀ d : List (String × α),
      x ∈ (dictInsert k v d).map Prod.fst ↔ x = k ∨ x ∈ d.map Prod.fst := by
  intro d
  induction d with
  | nil => simp [dictInsert]
  | cons p rest ih =>
    by_cases h : p.1 = k
    · subst h
      simp [dictInsert]
    · simp [dictInsert, h, ih]
      tauto

theorem keys_nodup_dictInsert {α : Type _} (k : String) (v : α) :
    ∀ d : List (String × α), (d.map Prod.fst).Nodup →
      ((dictInsert k v d).map Prod.fst).Nodup := by
  intro d
  induction d with
  | nil => intro _; simp [dictInsert]
  | cons p rest ih =>
    intro hnd
    simp only [List.map_cons, List.nodup_cons] at hnd
    by_cases h : p.1 = k
    · subst h
      simpa [dictInsert] using hnd
    · simp only [dictInsert, h, if_false, List.map_cons, List.nodup_cons]
      refine ⟨?_, ih hnd.2⟩
      rw [mem_keys_dictInsert]
      push_neg
      exact ⟨h, hnd.1⟩

theorem dictGet_of_mem {α : Type _} :
    ∀ (d : List (String × α)) (p : String × α),
      (d.map Prod.fst).Nodup → p ∈ d → dictGet p.1 d = some p.2 := by
  intro d
  induction d with
  | nil => intro p _ hp; simp at hp
  | cons q rest ih =>
    intro p hnd hp
    simp only [List.map_cons, List.nodup_cons] at hnd
    rcases List.mem_cons.mp hp with h | h
    · subst h
      simp [dictGet]
    · have hne : q.1 ≠ p.1 := by
        intro he
        exact hnd.1 (he ▸ List.mem_map_of_mem Prod.fst h)
      simp [dictGet, hne, ih p hnd.2 h]

/-! ### C4: `processClientSeed` error behaviour -/

/-- C4: For every game state, `processClientSeed` fails with the capacity
error when 9 participants are already committed; otherwise it fails with
the seed-length error exactly when the UTF-8 encoding of the seed exceeds
64 bytes (exactly 64 bytes succeeds); and on either failure the stored
`clientSeeds` and `commitments` are left unchanged. -/
theorem processClientSeed_errors (sha : List Nat → String) (st : GameState)
    (playerId clientSeed salt : String) :
    (9 ≤ st.clientSeeds.length →
      processClientSeed sha st playerId clientSeed salt = .error maxPlayersMsg) ∧
    (st.clientSeeds.length < 9 →
      (processClientSeed sha st playerId clientSeed salt = .error seedTooLongMsg
        ↔ 64 < (utf8Bytes clientSeed).length)) ∧
    (st.clientSeeds.length < 9 →
      ((processClientSeed sha st playerId clientSeed salt).isOk = true
        ↔ (utf8Bytes clientSeed).length ≤ 64)) ∧
    (∀ e, processClientSeed sha st playerId clientSeed salt = .error e →
      (processClientSeedState sha st playerId clientSeed salt).clientSeeds
          = st.clientSeeds ∧
      (processClientSeedState sha st playerId clientSeed salt).commitments
          = st.commitments) := by
  refine ⟨?_, ?_, ?_, ?_⟩
  · intro h
    simp only [processClientSeed, MAX_PLAYERS]
    rw [if_pos h]
  · intro h
    simp only [processClientSeed, MAX_PLAYERS]
    rw [if_neg (Nat.not_le.mpr h)]
    by_cases h64 : 64 < (utf8Bytes clientSeed).length
    · simp [h64]
    · simp [h64]
  · intro h
    simp only [processClientSeed, MAX_PLAYERS]
    rw [if_neg (Nat.not_le.mpr h)]
    by_cases h64 : 64 < (utf8Bytes clientSeed).length
    · simp [h64, Except.isOk, Except.toBool]
    · simp [h64, Except.isOk, Except.toBool]
      omega
  · intro e he
    simp [processClientSeedState, he]

/-- Constant digest function used to instantiate witnesses (the theorems
hold for every `sha`). -/
def wSha : List Nat → String := fun _ => "d0"

/-- A state with nine committed participants. -/
def stNine : GameState :=
  { initialState "g" with clientSeeds :=
      [("p1", ⟨"s", "t"⟩), ("p2", ⟨"s", "t"⟩), ("p3", ⟨"s", "t"⟩),
       ("p4", ⟨"s", "t"⟩), ("p5", ⟨"s", "t"⟩), ("p6", ⟨"s", "t"⟩),
       ("p7", ⟨"s", "t"⟩), ("p8", ⟨"s", "t"⟩), ("p9", ⟨"s", "t"⟩)] }

/-- A 64-byte ASCII seed. -/
def seed64 : String :=
  "aaaaaaaaaaaaaaaaaaaaaaaaaaaaaaaaaaaaaaaaaaaaaaaaaaaaaaaaaaaaaaaa"

/-- A 65-byte ASCII seed. -/
def seed65 : String :=
  "aaaaaaaaaaaaaaaaaaaaaaaaaaaaaaaaaaaaaaaaaaaaaaaaaaaaaaaaaaaaaaaaa"

theorem processClientSeed_errors_witness :
    processClientSeed wSha stNine "p" "s" "x" = .error maxPlayersMsg ∧
    processClientSeed wSha (initialState "g") "p" seed65 "x" = .error seedTooLongMsg ∧
    (processClientSeed wSha (initialState "g") "p" seed64 "x").isOk = true := by
  refine ⟨(processClientSeed_errors wSha stNine "p" "s" "x").1 (by decide),
          ((processClientSeed_errors wSha (initialState "g") "p" seed65 "x").2.1
            (by decide)).mpr (by decide),
          ((processClientSeed_errors wSha (initialState "g") "p" seed64 "x").2.2.1
            (by decide)).mpr (by decide)⟩

/-! ### C8: the returned mapping of `processClientSeed` -/

/-- C8 (the claim fails on the code): on a successful commit the returned
dict's `"playerId"` entry is the *bound method object* `playerId.lower` —
the source omits the call parentheses — never the player id string that
was passed in; the commitment digest and the generated salt are present
as claimed.  Evaluated at the concrete input `("Seal", "secret")` on a
fresh game. -/
theorem processClientSeed_returns_bound_method :
    (processClientSeed wSha (initialState "g") "Seal" "secret" "salt0").map
        (fun r => r.2.playerId)
      = .ok (.boundMethod "lower" "Seal") ∧
    PyRetVal.boundMethod "lower" "Seal" ≠ PyRetVal.str "Seal" ∧
    (processClientSeed wSha (initialState "g") "Seal" "secret" "salt0").map
        (fun r => (r.2.commitment, r.2.salt))
      = .ok (hashString wSha (commitmentString gameVersion "g" "secret" "salt0"), "salt0") := by
  exact ⟨rfl, by decide, rfl⟩

/-! ### C10: the two `hashValue` functions are extensionally equal -/

/-- C10: The game's digest function and the verifier's digest function are
extensionally equal: for every input value (string, bytes, or structured
JSON-serializable value) and every underlying digest primitive, they
return the same digest of the same canonical serialization. -/
theorem hashValue_system_eq_verifier (sha : List Nat → String) (v : HashInput) :
    MiacatPokerSystem.hashValue sha v = MiacatVerifier.hashValue sha v := by
  cases v with
  | bytes b => rfl
  | json j => cases j <;> rfl

/-! ### C2: quads evaluation -/

/-- Hole cards `[2♥, 2♦]`. -/
def holeC2 : List Card := [mkCard " of Hearts ♥" "2", mkCard " of Diamonds ♦" "2"]

/-- Community cards `[2♣, 2♠, 5♥, 9♦, K♣]`. -/
def commC2 : List Card :=
  [mkCard " of Clubs ♣" "2", mkCard " of Spades ♠" "2", mkCard " of Hearts ♥" "5",
   mkCard " of Diamonds ♦" "9", mkCard " of Clubs ♣" "King"]

/-- C2 counterexample: on `[2♥,2♦]` + `[2♣,2♠,5♥,9♦,K♣]` the code does
return the category `"Four of a Kind"`, but the tiebreak it returns is
`numericValues[:4] = [13, 9, 5, 2]` — the four largest of the
descending-sorted card values — whose leading value is `13`, not the quad
value `2`; the tiebreak is not the quad value. -/
theorem evaluateHand_quads_tiebreak_not_quad_value :
    evaluateHand holeC2 commC2 = some ("Four of a Kind", [13, 9, 5, 2]) ∧
    [13, 9, 5, 2].head? ≠ some 2 ∧ [13, 9, 5, 2] ≠ [2] := by decide

/-- C2 (amended): hand evaluation of `[2♥,2♦]` + `[2♣,2♠,5♥,9♦,K♣]`
returns category `"Four of a Kind"` with tiebreak values `[13, 9, 5, 2]`
(the four highest sorted card values); the quad value `2` appears only as
the last of them. -/
theorem evaluateHand_quads_example :
    evaluateHand holeC2 commC2 = some ("Four of a Kind", [13, 9, 5, 2]) ∧
    [13, 9, 5, 2].getLast? = some 2 := by decide

/-! ### C9: straight-flush detection is not suit-constrained -/

/-- Hole cards `[6♠, 7♦]`. -/
def holeC9 : List Card := [mkCard " of Spades ♠" "6", mkCard " of Diamonds ♦" "7"]

/-- Community cards `[2♥, 3♥, 4♥, 5♥, 9♥]`: five hearts (a flush) whose
values `{2,3,4,5,9}` contain no 5 consecutive values. -/
def commC9 : List Card :=
  [mkCard " of Hearts ♥" "2", mkCard " of Hearts ♥" "3", mkCard " of Hearts ♥" "4",
   mkCard " of Hearts ♥" "5", mkCard " of Hearts ♥" "9"]

/-- The claim's suit-constrained condition, expressed with the source's
own straight test: some suit has cards whose values (within that suit
alone) contain 5 consecutive values (or the wheel) — i.e. a genuine
straight flush is present among the 7 cards. -/
def hasSameSuitStraight (cards : List Card) : Bool :=
  (cards.map Card.suit).any (fun s =>
    match mapCardValues ((cards.filter (fun c => c.suit == s)).map Card.value) with
    | none => false
    | some vs => isStraight vs)

/-- C9 (the claim fails on the code): `_isStraightFlush` tests the flush
and the straight independently over all 7 cards, so on `[6♠,7♦]` +
`[2♥,3♥,4♥,5♥,9♥]` — a heart flush plus a mixed-suit straight 3..7 —
the code reports `"Straight Flush"` although no 5 same-suit cards with 5
consecutive values exist. -/
theorem straightFlush_without_suited_straight :
    evaluateHand holeC9 commC9 = some ("Straight Flush", [9, 7, 6, 5, 4]) ∧
    hasSameSuitStraight (holeC9 ++ commC9) = false := by decide

/-! ### C6: cards consumed by `dealCards` -/

/-- C6 counterexample: with 4 participants `dealCards` consumes 17 deck
cards, not `2·4 + 3 + 5 = 16`, because the sequence burns **four** cards
(an initial burn plus one before each of flop, turn and river). -/
theorem dealCards_four_players_consumes_17 :
    dealConsumed 4 = 17 ∧ 17 ≠ 2 * 4 + 3 + 5 ∧ (dealCards 4).burns.length = 4 := by decide

/-- C6 (amended): for every participant count `N ≥ 1` the fixed dealing
sequence consumes exactly `2N + 4 + 5 = 2N + 9` cards: 4 burns (one
initial and one before each of flop, turn, river), 5 community cards and
`2N` hole cards, dealt to seats in the order `2, 3, …, N, 1` twice. -/
theorem dealCards_consumes (n : Nat) (h : 1 ≤ n) :
    dealConsumed n = 2 * n + 9 ∧
    (dealCards n).burns.length = 4 ∧
    (dealCards n).holeCards.length = 2 * n ∧
    (dealCards n).flop.length + (dealCards n).turn.length + (dealCards n).river.length = 5 ∧
    (dealCards n).holeCards.map Prod.fst = dealOrder n ++ dealOrder n ∧
    dealOrder n = List.range' 2 (n - 1) ++ [1] := by
  have horder : (dealOrder n).length = n := by
    simp [dealOrder, List.length_range']
    omega
  refine ⟨?_, rfl, ?_, rfl, ?_, rfl⟩
  · simp [dealConsumed, dealCards, List.length_zip, List.length_range', horder]
    omega
  · simp [dealCards, List.length_zip, List.length_range', horder]
    omega
  · simp only [dealCards]
    rw [List.map_append]
    rw [List.map_fst_zip _ _ (by simp [List.length_range']),
        List.map_fst_zip _ _ (by simp [List.length_range'])]

theorem dealCards_consumes_witness :
    dealConsumed 3 = 2 * 3 + 9 ∧ (dealCards 3).burns.length = 4 ∧
    (dealCards 3).holeCards.length = 2 * 3 := by
  have h := dealCards_consumes 3 (by decide)
  exact ⟨h.1, h.2.1, h.2.2.1⟩

/-! ### C7: `verifyDeck` ignores the deck order -/

theorem collectSeeds_isSome (clientSeeds : List (String × ClientEntry)) :
    ∀ pl : List (String × Nat),
      (∀ p ∈ pl, (dictGet p.1 clientSeeds).isSome = true) →
      (collectSeeds clientSeeds pl).isSome = true := by
  intro pl
  induction pl with
  | nil => intro _; simp [collectSeeds]
  | cons p rest ih =>
    intro h
    have hp := h p (List.mem_cons_self p rest)
    obtain ⟨data, hdata⟩ := Option.isSome_iff_exists.mp hp
    have hrest := ih (fun q hq => h q (List.mem_cons_of_mem p hq))
    obtain ⟨l, hl⟩ := Option.isSome_iff_exists.mp hrest
    simp [collectSeeds, hdata, hl]

/-- C7: `verifyDeck` is independent of the dealt deck order: any two game
records agreeing on `gameVersion`, `gameId`, `serverSeed`, `positions`
and `clientSeeds` — differing arbitrarily in `cardMapping` — get the same
result; and it returns `true` whenever every participant id in
`positions` has an entry in `clientSeeds`, so a swapped deck order is
never detected. -/
theorem verifyDeck_ignores_cardMapping (sha : List Nat → String) (r1 r2 : GameRecord)
    (hgv : r1.gameVersion = r2.gameVersion) (hgid : r1.gameId = r2.gameId)
    (hss : r1.serverSeed = r2.serverSeed) (hpos : r1.positions = r2.positions)
    (hcs : r1.clientSeeds = r2.clientSeeds) :
    verifyDeck sha r1 = verifyDeck sha r2 ∧
    ((∀ pid ∈ r1.positions.map Prod.fst, (dictGet pid r1.clientSeeds).isSome = true) →
      verifyDeck sha r1 = true) := by
  constructor
  · unfold verifyDeck regenerateDeck
    rw [hgv, hgid, hss, hpos, hcs]
  · intro h
    unfold verifyDeck regenerateDeck regenerateDeckCore
    have hs : (collectSeeds r1.clientSeeds (List.insertionSort pairLe r1.positions)).isSome
        = true := by
      apply collectSeeds_isSome
      intro p hp
      exact h p.1 (List.mem_map_of_mem Prod.fst ((List.mem_insertionSort pairLe).mp hp))
    obtain ⟨l, hl⟩ := Option.isSome_iff_exists.mp hs
    simp [hl]

/-- Two records that agree except for a swapped (here: reversed) deck
order. -/
def recA : GameRecord :=
  { gameId := "g", gameVersion := gameVersion, serverSeed := some "srv",
    serverHash := some "h1", doubleHash := some "h2",
    cardMapping := some canonicalCards,
    clientSeeds := [("alice", ⟨"s1", "t1"⟩), ("bob", ⟨"s2", "t2"⟩)],
    positions := [("alice", 2), ("bob", 1)],
    commitments := [("alice", "c1"), ("bob", "c2")] }

/-- `recA` with the deck order reversed. -/
def recB : GameRecord := { recA with cardMapping := some canonicalCards.reverse }

theorem verifyDeck_ignores_cardMapping_witness :
    verifyDeck wSha recA = verifyDeck wSha recB ∧ verifyDeck wSha recA = true := by
  have h := verifyDeck_ignores_cardMapping wSha recA recB rfl rfl rfl rfl rfl
  exact ⟨h.1, h.2 (by decide)⟩


/-! ### C5: `assignPositions` -/

/-- The seat list `zip(sorted(playerIds), shuffled)` that a successful
`assignPositions` stores and returns. -/
def assignedPairs (rng : Nat → Nat) (st : GameState) : List (String × Nat) :=
  (sortStrings (st.clientSeeds.map Prod.fst)).zip
    (secureArrayShuffle rng (List.range' 1 (st.clientSeeds.map Prod.fst).length))

theorem assignedPairs_fst (rng : Nat → Nat) (st : GameState) :
    (assignedPairs rng st).map Prod.fst = sortStrings (st.clientSeeds.map Prod.fst) := by
  unfold assignedPairs sortStrings
  apply List.map_fst_zip
  rw [(List.perm_insertionSort _ _).length_eq,
      (secureArrayShuffle_perm rng _).length_eq, List.length_range']

theorem assignedPairs_snd (rng : Nat → Nat) (st : GameState) :
    (assignedPairs rng st).map Prod.snd
      = secureArrayShuffle rng (List.range' 1 (st.clientSeeds.map Prod.fst).length) := by
  unfold assignedPairs sortStrings
  apply List.map_snd_zip
  rw [(List.perm_insertionSort _ _).length_eq,
      (secureArrayShuffle_perm rng _).length_eq, List.length_range']

/-- C5: whenever at least one participant seed is stored and a
(nonempty, hex-prefixed) chain hash is present, `assignPositions` returns
a seat assignment whose keys are exactly the committed participant ids
and whose seats are exactly `1..N` (`N` = participant count), each
exactly once — a bijection — for any sequence of random draws; when a
precondition is missing it fails with the precondition error.  (A chain
hash "that has been produced" is a SHA-512 hexdigest: 128 lowercase hex
characters, hence nonempty with a parseable 16-character prefix.) -/
theorem assignPositions_bijection (rng : Nat → Nat) (st : GameState) :
    ((st.clientSeeds = [] ∨ st.doubleHash = none ∨ st.doubleHash = some "") →
      assignPositions rng st = .error positionsPreconditionMsg) ∧
    (∀ dh, st.doubleHash = some dh → dh ≠ "" → st.clientSeeds ≠ [] →
      (hexParse (dh.take 16)).isSome = true →
      (st.clientSeeds.map Prod.fst).Nodup →
      ∃ (st2 : GameState) (pl : List (String × Nat)),
        assignPositions rng st = .ok (st2, pl) ∧
        st2.positions = pl ∧
        (pl.map Prod.fst).Perm (st.clientSeeds.map Prod.fst) ∧
        (pl.map Prod.fst).Nodup ∧
        (pl.map Prod.snd).Perm (List.range' 1 st.clientSeeds.length) ∧
        (pl.map Prod.snd).Nodup) := by
  constructor
  · intro h
    rcases h with h | h | h
    · unfold assignPositions
      cases hdh : st.doubleHash with
      | none => rfl
      | some dh => simp [h]
    · unfold assignPositions
      rw [h]
    · unfold assignPositions
      rw [h]
      simp
  · intro dh hdh hne hcs hhex hnodup
    obtain ⟨e, he⟩ := Option.isSome_iff_exists.mp hhex
    have hisEmpty : st.clientSeeds.isEmpty = false := by
      cases hl : st.clientSeeds with
      | nil => exact absurd hl hcs
      | cons a l => rfl
    have hstep : assignPositions rng st
        = .ok (Prod.mk { st with positions := assignedPairs rng st } (assignedPairs rng st)) := by
      simp [assignPositions, hdh, hisEmpty, hne, he, assignedPairs, sortStrings]
    rw [hstep]
    refine ⟨_, _, rfl, rfl, ?_, ?_, ?_, ?_⟩
    · rw [assignedPairs_fst]
      exact List.perm_insertionSort _ _
    · rw [assignedPairs_fst]
      exact (List.perm_insertionSort _ _).symm.nodup hnodup
    · rw [assignedPairs_snd]
      simpa [List.length_map] using
        secureArrayShuffle_perm rng (List.range' 1 (st.clientSeeds.map Prod.fst).length)
    · rw [assignedPairs_snd]
      exact (secureArrayShuffle_perm rng _).symm.nodup (List.nodup_range' 1 _)

/-- A state ready for seat assignment: three committed players and a
produced chain hash. -/
def stSeats : GameState :=
  { initialState "g" with
      doubleHash := some "0123456789abcdef0123456789abcdef",
      clientSeeds := [("bob", ⟨"s1", "t1"⟩), ("alice", ⟨"s2", "t2"⟩),
                      ("carl", ⟨"s3", "t3"⟩)] }

theorem assignPositions_bijection_witness :
    ∃ (st2 : GameState) (pl : List (String × Nat)),
      assignPositions (fun _ => 0) stSeats = .ok (st2, pl) ∧
      st2.positions = pl ∧
      (pl.map Prod.fst).Perm (stSeats.clientSeeds.map Prod.fst) ∧
      (pl.map Prod.fst).Nodup ∧
      (pl.map Prod.snd).Perm (List.range' 1 stSeats.clientSeeds.length) ∧
      (pl.map Prod.snd).Nodup :=
  (assignPositions_bijection (fun _ => 0) stSeats).2
    "0123456789abcdef0123456789abcdef" rfl (by decide) (by decide) (by decide) (by decide)

/-! ### C1: the exported record of a completed game verifies -/

/-- The state update a successful `processClientSeed` performs. -/
def commitStep (sha : List Nat → String) (st : GameState) (pid seed salt : String) :
    GameState :=
  { st with
    clientSeeds := dictInsert pid { seed := seed, salt := salt } st.clientSeeds,
    commitments :=
      dictInsert pid (hashString sha (commitmentString gameVersion st.gameId seed salt))
        st.commitments }

/-- The dict a successful `processClientSeed` returns. -/
def commitResultOf (sha : List Nat → String) (st : GameState) (pid seed salt : String) :
    CommitResult :=
  { playerId := .boundMethod "lower" pid,
    commitment := hashString sha (commitmentString gameVersion st.gameId seed salt),
    salt := salt }

/-- Run a sequence of `processClientSeed` calls — one `(playerId,
clientSeed, salt)` triple per participant — stopping at the first raised
error, as a driver program would. -/
def runCommits (sha : List Nat → String) :
    GameState → List (String × String × String) → Except String GameState
  | st, [] => .ok st
  | st, c :: rest =>
    match processClientSeed sha st c.1 c.2.1 c.2.2 with
    | .error e => .error e
    | .ok (st2, _) => runCommits sha st2 rest

/-- Invariant of every state a game reaches after `generateServerSeed`:
the stored `serverHash` is the digest of the combined binding string of
the stored `serverSeed`/`cardMapping`, the stored `doubleHash` is the
digest of the `serverHash`, the committed ids are distinct, and every
stored client seed has its matching commitment digest stored under the
same id. -/
def GameInv (sha : List Nat → String) (st : GameState) : Prop :=
  (∃ ss cm, st.serverSeed = some ss ∧ st.cardMapping = some cm ∧
    st.serverHash = some (hashString sha (serverCombinedSeed gameVersion st.gameId ss (some cm))) ∧
    st.doubleHash = some (hashString sha
      (hashString sha (serverCombinedSeed gameVersion st.gameId ss (some cm))))) ∧
  (st.clientSeeds.map Prod.fst).Nodup ∧
  (∀ pid entry, dictGet pid st.clientSeeds = some entry →
    dictGet pid st.commitments
      = some (hashString sha (commitmentString gameVersion st.gameId entry.seed entry.salt)))

theorem gameInv_after_generate (sha : List Nat → String) (rng : Nat → Nat)
    (serverSeed gameId : String) :
    GameInv sha ((generateServerSeed sha rng serverSeed (initialState gameId)).1) := by
  refine ⟨⟨serverSeed, generateCardMapping rng, rfl, rfl, rfl, rfl⟩, ?_, ?_⟩
  · simp [generateServerSeed, initialState]
  · intro pid entry h
    simp [generateServerSeed, initialState, dictGet] at h

theorem gameInv_commitStep (sha : List Nat → String) (st : GameState)
    (pid seed salt : String) (h : GameInv sha st) :
    GameInv sha (commitStep sha st pid seed salt) := by
  obtain ⟨hsrv, hnodup, hcomm⟩ := h
  refine ⟨?_, ?_, ?_⟩
  · simpa [commitStep] using hsrv
  · simpa [commitStep] using keys_nodup_dictInsert pid _ st.clientSeeds hnodup
  · intro pid2 entry hget
    simp only [commitStep] at hget ⊢
    by_cases hp : pid2 = pid
    · subst hp
      rw [dictGet_dictInsert_self] at hget
      injection hget with hh
      subst hh
      rw [dictGet_dictInsert_self]
    · rw [dictGet_dictInsert_ne pid2 pid _ (fun hh => hp hh.symm)] at hget
      rw [dictGet_dictInsert_ne pid2 pid _ (fun hh => hp hh.symm)]
      exact hcomm pid2 entry hget

theorem runCommits_ok (sha : List Nat → String) :
    ∀ (cs : List (String × String × String)) (st : GameState),
      GameInv sha st →
      st.clientSeeds.length + cs.length ≤ 9 →
      (∀ c ∈ cs, (utf8Bytes c.2.1).length ≤ 64) →
      ∃ st2, runCommits sha st cs = .ok st2 ∧ GameInv sha st2 := by
  intro cs
  induction cs with
  | nil => intro st hinv _ _; exact ⟨st, rfl, hinv⟩
  | cons c rest ih =>
    intro st hinv hlen hseeds
    have hcap : ¬ (MAX_PLAYERS ≤ st.clientSeeds.length) := by
      simp only [MAX_PLAYERS]
      simp only [List.length_cons] at hlen
      omega
    have hsd : ¬ (64 < (utf8Bytes c.2.1).length) := by
      have := hseeds c (List.mem_cons_self c rest)
      omega
    have hstep : processClientSeed sha st c.1 c.2.1 c.2.2
        = .ok (commitStep sha st c.1 c.2.1 c.2.2, commitResultOf sha st c.1 c.2.1 c.2.2) := by
      simp [processClientSeed, commitStep, commitResultOf, hcap, hsd]
    have hlen2 : (commitStep sha st c.1 c.2.1 c.2.2).clientSeeds.length + rest.length ≤ 9 := by
      have hd := dictInsert_length_le c.1 (ClientEntry.mk c.2.1 c.2.2) st.clientSeeds
      simp only [commitStep] at hd ⊢
      simp only [List.length_cons] at hlen
      omega
    obtain ⟨st2, h2, hinv2⟩ := ih (commitStep sha st c.1 c.2.1 c.2.2)
      (gameInv_commitStep sha st c.1 c.2.1 c.2.2 hinv) hlen2
      (fun q hq => hseeds q (List.mem_cons_of_mem c hq))
    exact ⟨st2, by simp [runCommits, hstep, h2], hinv2⟩

theorem gameInv_verifies (sha : List Nat → String) (st : GameState) (h : GameInv sha st) :
    verifyServerHash sha (exportGameData st) = true ∧
    verifyDoubleHash sha (exportGameData st) = true ∧
    ∀ p ∈ (exportGameData st).clientSeeds,
      verifyPlayerCommitment sha (exportGameData st) p.1 = some true := by
  obtain ⟨⟨ss, cm, h1, h2, h3, h4⟩, hnodup, hcomm⟩ := h
  refine ⟨?_, ?_, ?_⟩
  · simp [verifyServerHash, exportGameData, h1, h2, h3, pyStr]
  · simp [verifyDoubleHash, exportGameData, h3, h4, optStrToHashInput,
          MiacatVerifier.hashValue, hashString]
  · intro p hp
    have hget : dictGet p.1 st.clientSeeds = some p.2 :=
      dictGet_of_mem st.clientSeeds p hnodup hp
    have hc := hcomm p.1 p.2 hget
    simp [verifyPlayerCommitment, exportGameData, hget, hc]

/-- C1: for every completed game — house seed generated via
`generateServerSeed` on a fresh state, any number of participants
committed via `processClientSeed` (at most the capacity, with valid seed
lengths, as in any game the system completes) — the verifier run on the
exported record reports true for the server-hash check, true for the
chain (double-hash) check, and true for every per-participant commitment
check; for every digest function and every sequence of random draws. -/
theorem game_roundtrip_verifies (sha : List Nat → String) (rng : Nat → Nat)
    (gameId serverSeed : String) (cs : List (String × String × String))
    (hlen : cs.length ≤ 9)
    (hseeds : ∀ c ∈ cs, (utf8Bytes c.2.1).length ≤ 64) :
    ∃ st : GameState,
      runCommits sha ((generateServerSeed sha rng serverSeed (initialState gameId)).1) cs
        = .ok st ∧
      verifyServerHash sha (exportGameData st) = true ∧
      verifyDoubleHash sha (exportGameData st) = true ∧
      ∀ p ∈ (exportGameData st).clientSeeds,
        verifyPlayerCommitment sha (exportGameData st) p.1 = some true := by
  have hlen0 : ((generateServerSeed sha rng serverSeed (initialState gameId)).1).clientSeeds.length
      + cs.length ≤ 9 := by
    simpa [generateServerSeed, initialState] using hlen
  obtain ⟨st2, hrun, hinv⟩ := runCommits_ok sha cs
    ((generateServerSeed sha rng serverSeed (initialState gameId)).1)
    (gameInv_after_generate sha rng serverSeed gameId) hlen0 hseeds
  obtain ⟨hv1, hv2, hv3⟩ := gameInv_verifies sha st2 hinv
  exact ⟨st2, hrun, hv1, hv2, hv3⟩

theorem game_roundtrip_verifies_witness :
    ∃ st : GameState,
      runCommits wSha ((generateServerSeed wSha (fun _ => 0) "srv" (initialState "g")).1)
        [("Seal", "abc", "def"), ("Wino", "xyz", "uvw")] = .ok st ∧
      verifyServerHash wSha (exportGameData st) = true ∧
      verifyDoubleHash wSha (exportGameData st) = true ∧
      ∀ p ∈ (exportGameData st).clientSeeds,
        verifyPlayerCommitment wSha (exportGameData st) p.1 = some true :=
  game_roundtrip_verifies wSha (fun _ => 0) "g" "srv"
    [("Seal", "abc", "def"), ("Wino", "xyz", "uvw")] (by decide) (by decide)
